import Mathlib

/-!
Verification development for the sigurlx URL-analysis pipeline
(`pkg/runner/runner.go`).

The Go source is shallowly embedded: strings are modelled as `List Char`
(the pipeline only manipulates ASCII data, for which Go's byte-wise string
operations and this character-wise model agree), the pieces of `net/url`
that the pipeline calls (`QueryUnescape`, `QueryEscape`, `ParseQuery`,
`Values.Set`, `Values.Encode`, `URL.String`, and a restricted `url.Parse`)
are modelled from their documented stdlib semantics, Go's `regexp` matching
is modelled with a Brzozowski-derivative regular-expression engine, and the
HTTP client is an oracle parameter `Http : Request → Except Str Resp`
supplied by each theorem.  `Process` additionally returns the list of
requests it issued (its observable network trace) so that theorems can
speak about outbound traffic.

Go map iteration order is unspecified; query maps are modelled as
association lists whose list order stands for one admissible iteration
order, and theorems that depend on order quantify over arbitrary
association lists.
-/

namespace Sigurlx

/-- Strings are lists of characters (Go bytes, faithful for ASCII data). -/
abbrev Str := List Char

/-- Conversion from Lean string literals. -/
def str (s : String) : Str := s.data

/-- Byte-wise lexicographic order on strings, as used by Go `sort.Strings`. -/
def lexLe : Str → Str → Bool
  | [], _ => true
  | _ :: _, [] => false
  | a :: as, b :: bs => if a.toNat = b.toNat then lexLe as bs else decide (a.toNat < b.toNat)

/-- Order on query-map entries comparing keys, used to model the
`sort.Strings(keys)` step of `url.Values.Encode`. -/
def keyLe (a b : Str × List Str) : Prop := lexLe a.1 b.1 = true

instance : DecidableRel keyLe := fun a b => inferInstanceAs (Decidable (lexLe a.1 b.1 = true))

theorem lexLe_total : ∀ (a b : Str), lexLe a b = true ∨ lexLe b a = true
  | [], _ => Or.inl rfl
  | _ :: _, [] => Or.inr rfl
  | a :: as, b :: bs => by
    simp only [lexLe]
    by_cases h : a.toNat = b.toNat
    · rw [if_pos h, if_pos h.symm]
      exact lexLe_total as bs
    · rw [if_neg h, if_neg (Ne.symm h)]
      simp only [decide_eq_true_eq]
      omega

theorem lexLe_trans : ∀ (a b c : Str), lexLe a b = true → lexLe b c = true → lexLe a c = true
  | [], _, _, _, _ => rfl
  | _ :: _, [], _, h1, _ => by simp [lexLe] at h1
  | _ :: _, _ :: _, [], _, h2 => by simp [lexLe] at h2
  | a :: as, b :: bs, c :: cs, h1, h2 => by
    simp only [lexLe] at h1 h2 ⊢
    by_cases hab : a.toNat = b.toNat <;> by_cases hbc : b.toNat = c.toNat
    · rw [if_pos (hab.trans hbc)]
      rw [if_pos hab] at h1
      rw [if_pos hbc] at h2
      exact lexLe_trans as bs cs h1 h2
    · rw [if_neg hbc] at h2
      simp only [decide_eq_true_eq] at h2
      rw [if_neg (show ¬a.toNat = c.toNat by omega)]
      simp only [decide_eq_true_eq]
      omega
    · rw [if_neg hab] at h1
      simp only [decide_eq_true_eq] at h1
      rw [if_neg (show ¬a.toNat = c.toNat by omega)]
      simp only [decide_eq_true_eq]
      omega
    · rw [if_neg hab] at h1
      rw [if_neg hbc] at h2
      simp only [decide_eq_true_eq] at h1 h2
      rw [if_neg (show ¬a.toNat = c.toNat by omega)]
      simp only [decide_eq_true_eq]
      omega

instance : IsTotal (Str × List Str) keyLe := ⟨fun a b => lexLe_total a.1 b.1⟩

instance : IsTrans (Str × List Str) keyLe := ⟨fun a b c => lexLe_trans a.1 b.1 c.1⟩

/-- Boolean string-prefix test (Go `strings.HasPrefix`). -/
def isPre : Str → Str → Bool
  | [], _ => true
  | _ :: _, [] => false
  | a :: as, b :: bs => a == b && isPre as bs

/-- Substring search for a literal needle: models Go
`regexp.MustCompile(lit).FindStringSubmatch(body) != nil` for a needle that
contains no regular-expression metacharacters (the probe marker is
alphanumeric), i.e. plain substring containment. -/
def containsSub (n : Str) : Str → Bool
  | [] => n.isEmpty
  | c :: t => isPre n (c :: t) || containsSub n t

/-! ### net/url: percent-decoding and percent-encoding (query mode) -/

/-- Hex-digit test: Go `net/url.ishex`. -/
def ishex (c : Char) : Bool :=
  (48 ≤ c.toNat && c.toNat ≤ 57) || (97 ≤ c.toNat && c.toNat ≤ 102) ||
    (65 ≤ c.toNat && c.toNat ≤ 70)

/-- Hex-digit value: Go `net/url.unhex`. -/
def unhex (c : Char) : Nat :=
  if 48 ≤ c.toNat && c.toNat ≤ 57 then c.toNat - 48
  else if 97 ≤ c.toNat then c.toNat - 87
  else c.toNat - 55

/-- Go `url.QueryUnescape`: decodes `%XX` escapes, turns `+` into a space,
and fails (`none`) on a malformed percent escape. -/
def unescape : Str → Option Str
  | [] => some []
  | '%' :: a :: b :: rest =>
    if ishex a && ishex b then
      (unescape rest).map (fun r => Char.ofNat (unhex a * 16 + unhex b) :: r)
    else none
  | '%' :: _ => none
  | '+' :: rest => (unescape rest).map (fun r => ' ' :: r)
  | c :: rest => (unescape rest).map (fun r => c :: r)

/-- Alphanumeric ASCII test, first clause of Go `net/url.shouldEscape`. -/
def alphanum (c : Char) : Bool :=
  (97 ≤ c.toNat && c.toNat ≤ 122) || (65 ≤ c.toNat && c.toNat ≤ 90) ||
    (48 ≤ c.toNat && c.toNat ≤ 57)

/-- Go `net/url.shouldEscape` in `encodeQueryComponent` mode: everything is
escaped except ASCII alphanumerics and `-`, `_`, `.`, `~`. -/
def shouldEscapeQuery (c : Char) : Bool :=
  !(alphanum c || c == '-' || c == '_' || c == '.' || c == '~')

/-- Upper-case hex digit of a value below 16, as emitted by Go's escaper. -/
def upperHexDigit (n : Nat) : Char :=
  if n < 10 then Char.ofNat (48 + n) else Char.ofNat (55 + n)

/-- Go `url.QueryEscape`: spaces become `+`, other escaped bytes become
upper-case `%XX` triples. -/
def queryEscape (s : Str) : Str :=
  s.flatMap (fun c =>
    if shouldEscapeQuery c then
      if c == ' ' then ['+']
      else ['%', upperHexDigit (c.toNat / 16), upperHexDigit (c.toNat % 16)]
    else [c])

/-! ### net/url: query maps (`url.Values`) -/

/-- Go `url.Values` (`map[string][]string`), modelled as an association
list; the list order stands for one admissible map-iteration order. -/
abbrev Values := List (Str × List Str)

/-- Map read, locating the entry of a key. -/
def lookupEntry (q : Values) (k : Str) : Option (Str × List Str) :=
  q.find? (fun kv => kv.1 == k)

/-- Go map read `query[k]` (a missing key yields the nil slice). -/
def lookupValues (q : Values) (k : Str) : List Str :=
  ((lookupEntry q k).map (fun kv => kv.2)).getD []

/-- Go `Values.Add`-style accumulation used by `ParseQuery`
(`m[key] = append(m[key], value)`). -/
def addValue : Values → Str → Str → Values
  | [], k, v => [(k, [v])]
  | kv :: rest, k, v =>
    if kv.1 == k then (kv.1, kv.2 ++ [v]) :: rest else kv :: addValue rest k v

/-- Go `Values.Set` (`v[key] = []string{value}`). -/
def setValue : Values → Str → Str → Values
  | [], k, v => [(k, [v])]
  | kv :: rest, k, v =>
    if kv.1 == k then (kv.1, [v]) :: rest else kv :: setValue rest k v

/-- Splits a raw query on the separators `&` and `;` (the repository's
Go-toolchain era treats both as separators in `ParseQuery`). -/
def splitSeps : Str → List Str
  | [] => [[]]
  | c :: t =>
    if c == '&' || c == ';' then [] :: splitSeps t
    else
      match splitSeps t with
      | [] => [[c]]
      | comp :: comps => (c :: comp) :: comps

/-- Splits a query component at its first `=`; a component without `=`
keeps an empty value, as in Go `ParseQuery`. -/
def cutEq : Str → Str × Str
  | [] => ([], [])
  | c :: t =>
    if c == '=' then ([], t)
    else
      let p := cutEq t
      (c :: p.1, p.2)

/-- Go `url.ParseQuery`: splits into components, skips components with an
empty key, percent-decodes keys and values, accumulates values per key, and
reports (second component `true`) whether any component failed to decode —
`ParseQuery` records the first error while still continuing. -/
def parseQuery (s : Str) : Values × Bool :=
  (splitSeps s).foldl
    (fun acc comp =>
      if comp == [] then acc
      else
        let kv := cutEq comp
        match unescape kv.1, unescape kv.2 with
        | some k, some v => (addValue acc.1 k v, acc.2)
        | _, _ => (acc.1, true))
    ([], false)

/-- Renders query pairs in the given order:
`escape(key) ++ "=" ++ escape(value)` for every value of every key, joined
by `&` — the body of `url.Values.Encode` after its key sort. -/
def renderQ (q : Values) : Str :=
  let comps := q.flatMap (fun kv => kv.2.map (fun v => queryEscape kv.1 ++ '=' :: queryEscape v))
  match comps with
  | [] => []
  | c :: cs => cs.foldl (fun acc x => acc ++ '&' :: x) c

/-- Go `url.Values.Encode`: sorts the keys (`sort.Strings`; on the distinct
keys of a map any correct sort yields the same list, modelled with
insertion sort) and renders every key/value pair percent-escaped. -/
def encode (q : Values) : Str :=
  renderQ (List.insertionSort keyLe q)

/-! ### net/url: URL records (`url.URL`) -/

/-- The fields of Go `url.URL` that the pipeline reads or writes. -/
structure URLRec where
  scheme : Str := []
  host : Str := []
  path : Str := []
  rawQuery : Str := []
deriving DecidableEq

/-- ASCII control characters, which make Go `url.Parse` fail. -/
def isCtl (c : Char) : Bool := c.toNat < 32 || c.toNat == 127

/-- Splits a URL string at its first `?` into before/after parts. -/
def cutQ : Str → Str × Str
  | [] => ([], [])
  | c :: t =>
    if c == '?' then ([], t)
    else
      let p := cutQ t
      (c :: p.1, p.2)

/-- Locates the first `://`, returning the scheme before it and the text
after it. -/
def cutScheme : Str → Option (Str × Str)
  | [] => none
  | c :: t =>
    if isPre (str ("://")) (c :: t) then some ([], t.drop 2)
    else (cutScheme t).map (fun p => (c :: p.1, p.2))

/-- Splits `host/path…` at the first `/` (the slash stays with the path). -/
def hostPath : Str → Str × Str
  | [] => ([], [])
  | c :: t =>
    if c == '/' then ([], c :: t)
    else
      let p := hostPath t
      (c :: p.1, p.2)

/-- Modelled from Go `url.Parse`, restricted to the inputs the pipeline
exercises: absolute URLs without userinfo, fragment, percent-escapes in the
path, or a trailing `?` with an empty query. Fails on ASCII control
characters as `url.Parse` does; other rare stdlib error cases are not
modelled. -/
def parseURL (s : Str) : Option URLRec :=
  if s.any isCtl then none
  else
    let bq := cutQ s
    match cutScheme bq.1 with
    | some p =>
      let hp := hostPath p.2
      some { scheme := p.1, host := hp.1, path := hp.2, rawQuery := bq.2 }
    | none => some { path := bq.1, rawQuery := bq.2 }

/-- Go `url.URL.String()` for the URL shapes of `parseURL`: scheme, host,
path, and `?` plus the raw query when the raw query is non-empty. -/
def urlString (u : URLRec) : Str :=
  (if u.scheme == [] then [] else u.scheme ++ str ("://")) ++ u.host ++ u.path ++
    (if u.rawQuery == [] then [] else '?' :: u.rawQuery)

/-! ### Go regexp, by Brzozowski derivatives -/

/-- Regular expressions over characters; `cls` is a character class given
by its membership predicate. -/
inductive RE where
  | emp : RE
  | eps : RE
  | cls : (Char → Bool) → RE
  | alt : RE → RE → RE
  | seq : RE → RE → RE
  | star : RE → RE

/-- Smart alternation constructor keeping derivative terms small. -/
def mkAlt : RE → RE → RE
  | RE.emp, b => b
  | a, RE.emp => a
  | a, b => RE.alt a b

/-- Smart concatenation constructor keeping derivative terms small. -/
def mkSeq : RE → RE → RE
  | RE.emp, _ => RE.emp
  | _, RE.emp => RE.emp
  | RE.eps, b => b
  | a, RE.eps => a
  | a, b => RE.seq a b

/-- Whether a regular expression accepts the empty string. -/
def nullable : RE → Bool
  | RE.emp => false
  | RE.eps => true
  | RE.cls _ => false
  | RE.alt a b => nullable a || nullable b
  | RE.seq a b => nullable a && nullable b
  | RE.star _ => true

/-- Brzozowski derivative of a regular expression by one character. -/
def deriv : RE → Char → RE
  | RE.emp, _ => RE.emp
  | RE.eps, _ => RE.emp
  | RE.cls p, c => if p c then RE.eps else RE.emp
  | RE.alt a b, c => mkAlt (deriv a c) (deriv b c)
  | RE.seq a b, c =>
    if nullable a then mkAlt (mkSeq (deriv a c) b) (deriv b c) else mkSeq (deriv a c) b
  | RE.star a, c => mkSeq (deriv a c) (RE.star a)

/-- Literal-word regular expression. -/
def lit : Str → RE := fun s => s.foldr (fun c r => RE.seq (RE.cls (fun x => x == c)) r) RE.eps

/-- Alternation of a list of regular expressions. -/
def alts : List RE → RE
  | [] => RE.emp
  | [r] => r
  | r :: rs => RE.alt r (alts rs)

/-- Concatenation of a list of regular expressions. -/
def seqs : List RE → RE
  | [] => RE.eps
  | [r] => r
  | r :: rs => RE.seq r (seqs rs)

/-- Option operator `?` on a regular expression. -/
def optR (r : RE) : RE := RE.alt r RE.eps

/-- Shortest prefix of the input accepted by the expression, accumulator
style; `none` when no prefix is accepted. -/
def matchShortest (r : RE) : Str → Str → Option Str
  | [], acc => if nullable r then some acc.reverse else none
  | c :: cs, acc =>
    if nullable r then some acc.reverse else matchShortest (deriv r c) cs (c :: acc)

/-- Unanchored search: the match at the leftmost matching start position
(Go `FindStringSubmatch` is non-nil exactly when such a position exists;
only existence and the match-vs-nil distinction matter to the pipeline, so
the shortest match at that position is returned). -/
def reFind (r : RE) : Str → Option Str
  | [] => if nullable r then some [] else none
  | c :: cs =>
    match matchShortest r (c :: cs) [] with
    | some m => some m
    | none => reFind r cs

/-- Go's `\s` class: `[\t\n\f\r ]`. -/
def wsC : RE := RE.cls (fun c => c == ' ' || c == '\t' || c == '\n' || c == '\x0c' || c == '\r')

/-- The source pattern's `["'\]]` class: double quote, single quote, `]`. -/
def qbC : RE := RE.cls (fun c => c == Char.ofNat 34 || c == Char.ofNat 39 || c == ']')

/-- Sink-property words `src|href|data|location|code|value|action` of the
DOM-XSS pattern. -/
def sinkWords : RE :=
  alts ((["src", "href", "data", "location", "code", "value", "action"].map str).map lit)

/-- Sink-call words
`replace|assign|navigate|getResponseHeader|open(Dialog)?|showModalDialog|eval|evaluate|execCommand|execScript|setTimeout|setInterval`
of the DOM-XSS pattern. -/
def callWords : RE :=
  alts [lit (str ("replace")), lit (str ("assign")), lit (str ("navigate")),
    lit (str ("getResponseHeader")), RE.seq (lit (str ("open"))) (optR (lit (str ("Dialog")))),
    lit (str ("showModalDialog")), lit (str ("eval")), lit (str ("evaluate")),
    lit (str ("execCommand")), lit (str ("execScript")), lit (str ("setTimeout")),
    lit (str ("setInterval"))]

/-- The DOM-XSS pattern exactly as compiled at runner.go:199, including the
leading and trailing literal `/` characters present in the Go source string
(Go `regexp` treats them as ordinary characters, not delimiters), so the
whole pattern is the alternation of `/(sink…=)` and `(call…()/`. -/
def domXSS : RE :=
  RE.alt
    (seqs [RE.cls (fun c => c == '/'), sinkWords, RE.star wsC, RE.star qbC, RE.star wsC,
      optR (RE.cls (fun c => c == '+')), RE.cls (fun c => c == '=')])
    (seqs [callWords, RE.star wsC, RE.star qbC, RE.star wsC,
      RE.cls (fun c => c == '('), RE.cls (fun c => c == '/')])

/-- The DOM-sink scan at runner.go:200-203: when `FindStringSubmatch` is
non-nil the matched strings are appended (modelled by the leftmost match;
the claims observe only emptiness versus non-emptiness), otherwise nothing
is appended. -/
def domSubmatch (body : Str) : List Str :=
  match reFind domXSS body with
  | some m => [m]
  | none => []

/-! ### The URL categorizer -/

/-- After an extension, the source patterns `(\?.*?|)$` under `(?m)` accept
end of input, a newline (multiline `$`), or a `?` (whose `.*?$` tail always
reaches an end-of-line). -/
def tailOk : Str → Bool
  | [] => true
  | c :: _ => c == '?' || c == '\n'

/-- Whether one of the extensions matches at the head of the string: a dot,
the extension word, then `tailOk`. -/
def extAt (exts : List Str) : Str → Bool
  | [] => false
  | c :: rest => c == '.' && exts.any (fun e => isPre e rest && tailOk (rest.drop e.length))

/-- Unanchored `MatchString` of a source pattern
`(?m).*?\.(e1|…|en)(\?.*?|)$`: such a pattern matches a string exactly when
some position carries `.ei` followed by end of input, `?`, or a newline
(the lazy quantifiers do not affect match existence). -/
def extScan (exts : List Str) : Str → Bool
  | [] => false
  | c :: t => extAt exts (c :: t) || extScan exts t

/-- Extension set of the `JS` category pattern (runner.go:60). -/
def jsExts : List Str := [str ("js")]

/-- Extension set of the `DOC` category pattern (runner.go:61). -/
def docExts : List Str := ["pdf", "xlsx", "doc", "docx", "txt"].map str

/-- Extension set of the `DATA` category pattern (runner.go:62). -/
def dataExts : List Str := ["json", "xml", "csv"].map str

/-- Extension set of the `STYLE` category pattern (runner.go:63). -/
def styleExts : List Str := [str ("css")]

/-- Extension set of the `MEDIA` category pattern (runner.go:64). -/
def mediaExts : List Str :=
  ["jpg", "jpeg", "png", "ico", "svg", "gif", "webp", "mp3", "mp4", "woff", "woff2", "ttf",
    "eot", "tif", "tiff"].map str

/-- Extension set of the `ARCHIVE` category pattern (runner.go:65); the
escaped dot of `tar\.gz` is a literal dot inside the extension word. -/
def archiveExts : List Str := ["zip", "tar", "tar.gz"].map str

/-- runner.go:230-270 `categorize`: tries the six category patterns in
order, keeping the first match, with fallback `endpoint`; the Go function
also returns an error value that is always nil, so the model is total. -/
def categorize (s : Str) : Str :=
  if extScan jsExts s then str ("js")
  else if extScan docExts s then str ("doc")
  else if extScan dataExts s then str ("data")
  else if extScan styleExts s then str ("style")
  else if extScan mediaExts s then str ("media")
  else if extScan archiveExts s then str ("archive")
  else str ("endpoint")

/-! ### The risky-parameter catalog -/

/-- Catalog entry (runner.go:26-29). -/
structure RiskyParams where
  param : Str
  risks : List Str
deriving DecidableEq

/-- Character-wise lower-casing, Go `strings.ToLower` on ASCII data. -/
def toLowerStr (s : Str) : Str := s.map Char.toLower

/-- The catalog scan of runner.go:139-144: first entry whose name equals
the parameter name after lower-casing both sides, stopping at the first
match (`break`), `none` when no entry matches. -/
def riskyMatch : List RiskyParams → Str → Option RiskyParams
  | [], _ => none
  | e :: rest, p =>
    if toLowerStr e.param = toLowerStr p then some e else riskyMatch rest p

/-! ### HTTP client and pipeline data -/

/-- Reflected-parameter finding (runner.go:31-34). -/
structure ReflectedParams where
  param : Str
  url : Str
deriving DecidableEq

/-- The result record (runner.go:43-55); the nested `Params` struct is
flattened into the three `params…` fields. -/
structure Results where
  url : Str := []
  category : Str := []
  statusCode : Nat := 0
  contentType : Str := []
  contentLength : Int := 0
  paramsList : List Str := []
  paramsRisky : List RiskyParams := []
  paramsReflected : List ReflectedParams := []
  dom : List Str := []
deriving DecidableEq

/-- An outbound HTTP request as built by `httpRequest`. -/
structure Request where
  method : Str
  url : Str
  headers : List (Str × Str)
  body : Option Str
deriving DecidableEq

/-- The response data the pipeline reads: status code, the raw
`Content-Type` header, the fully-drained body, and `ContentLength`. -/
structure Resp where
  statusCode : Nat
  contentType : Str
  body : Str
  contentLength : Int

/-- The network oracle standing for `client.Do`. -/
abbrev Http := Request → Except Str Resp

/-- runner.go:214-228 `httpRequest`: builds the request with a nil body
(`http.NewRequest(method, URL, nil)`) and exactly one header,
`User-Agent`, from the configuration; the oracle is applied to it by the
pipeline. -/
def httpRequest (ua : Str) (u : Str) (method : Str) : Request :=
  { method := method, url := u, headers := [(str ("User-Agent"), ua)], body := none }

/-- The probe marker constant of runner.go:150. -/
def payload : Str := str ("iy3j4h234hjb23234")

/-- Configuration flags consumed by the pipeline (fields inferred from
their uses in runner.go; the `Options` type itself lives outside the
analysed file). -/
structure Options where
  c : Bool := false
  p : Bool := false
  pv : Bool := false
  pr : Bool := false
  request : Bool := false
  all : Bool := false
  userAgent : Str := []
  proxy : Str := []
  timeout : Nat := 0
deriving DecidableEq

/-- Output of the reflection-probing loop: the final query map, the final
`parsedURL.RawQuery`, the findings, the issued requests, and the first
error if any. -/
structure ReflectOut where
  query : Values
  rawQuery : Str
  reflected : List ReflectedParams
  trace : List Request
  err : Option Str
deriving DecidableEq

/-- runner.go:152-179, the reflection-probing loop, one step per parameter
of the iteration order `ks`: save `value[0]`, `Set` the marker, re-encode
into `parsedURL.RawQuery`, issue the GET, on success check the marker in
the body and record a finding, then `Set` the saved value back (the raw
query is not re-encoded after the restore). A request error aborts the
loop (runner.go:159-169). -/
def reflectLoop (http : Http) (ua : Str) (base : URLRec) (marker : Str) :
    List Str → Values → Str → List ReflectedParams → List Request → ReflectOut
  | [], q, raw, refl, tr => { query := q, rawQuery := raw, reflected := refl, trace := tr, err := none }
  | k :: ks, q, _raw, refl, tr =>
    let tmp := (lookupValues q k).headD []
    let q1 := setValue q k marker
    let raw1 := encode q1
    let u := urlString { base with rawQuery := raw1 }
    let req := httpRequest ua u (str ("GET"))
    match http req with
    | Except.error e =>
      { query := q1, rawQuery := raw1, reflected := refl, trace := tr ++ [req], err := some e }
    | Except.ok res =>
      let refl1 := if containsSub marker res.body then refl ++ [{ param := k, url := u }] else refl
      reflectLoop http ua base marker ks (setValue q1 k tmp) raw1 refl1 (tr ++ [req])

/-- Output of the parameter stages (runner.go:131-181). -/
structure StageOut where
  results : Results
  rawQuery : Str
  trace : List Request
  err : Option Str
deriving DecidableEq

/-- runner.go:131-181: when the query map is non-empty, stage 2 (parameter
list and risky lookup, gated by `P || PV || All`) and stage 3 (reflection
probing, gated by `P || PR || All`) run; findings appended before an
aborting probe error stay in the results, as in the Go named return. -/
def stage23 (opts : Options) (catalog : List RiskyParams) (http : Http) (u1 : URLRec)
    (query : Values) (r : Results) : StageOut :=
  if 0 < query.length then
    let r1 :=
      if opts.p || opts.pv || opts.all then
        { r with paramsList := query.map (fun kv => kv.1),
                 paramsRisky := (query.map (fun kv => kv.1)).filterMap (riskyMatch catalog) }
      else r
    if opts.p || opts.pr || opts.all then
      let out := reflectLoop http opts.userAgent u1 payload (query.map (fun kv => kv.1)) query
        u1.rawQuery [] []
      { results := { r1 with paramsReflected := out.reflected }, rawQuery := out.rawQuery,
        trace := out.trace, err := out.err }
    else { results := r1, rawQuery := u1.rawQuery, trace := [], err := none }
  else { results := r, rawQuery := u1.rawQuery, trace := [], err := none }

/-- Content-type truncation of runner.go:207:
`strings.Split(ct, ";")[0]`. -/
def cutSemi : Str → Str
  | [] => []
  | c :: t => if c == ';' then [] else c :: cutSemi t

/-- The DOM-sink stage gate of runner.go:198-204: the scan runs only for
categories `js` and `endpoint`. -/
def domStage (category : Str) (body : Str) : List Str :=
  if category == str ("js") || category == str ("endpoint") then domSubmatch body else []

/-- Output of the full-page-fetch stage. -/
structure Stage4Out where
  results : Results
  trace : List Request
  err : Option Str
deriving DecidableEq

/-- runner.go:184-209: when gated on (`Request || All`), one more GET to
`parsedURL.String()` with the raw query left by the earlier stages, then
the DOM-sink stage and the status-code / content-type / content-length
fields; a request error returns the results unchanged with the error. -/
def stage4 (opts : Options) (http : Http) (base : URLRec) (raw : Str) (r : Results) : Stage4Out :=
  if opts.request || opts.all then
    let req := httpRequest opts.userAgent (urlString { base with rawQuery := raw }) (str ("GET"))
    match http req with
    | Except.error e => { results := r, trace := [req], err := some e }
    | Except.ok res =>
      let r1 := { r with dom := r.dom ++ domStage r.category res.body }
      let r2 := { r1 with statusCode := res.statusCode,
                          contentType := cutSemi res.contentType,
                          contentLength := res.contentLength }
      { results := r2, trace := [req], err := none }
  else { results := r, trace := [], err := none }

/-- Output of `Process`: the Go return pair `(results, err)` plus the list
of requests the call issued (its observable network trace). -/
structure ProcessOut where
  results : Results
  trace : List Request
  err : Option Str
deriving DecidableEq

/-- The tail of `Process` after URL and query parsing (runner.go:131-211):
the parameter stages followed, when they did not fail, by the full-page
fetch. -/
def processStages (opts : Options) (catalog : List RiskyParams) (http : Http) (u1 : URLRec)
    (q : Values) (r1 : Results) : ProcessOut :=
  let s23 := stage23 opts catalog http u1 q r1
  match s23.err with
  | some e => { results := s23.results, trace := s23.trace, err := some e }
  | none =>
    let s4 := stage4 opts http u1 s23.rawQuery s23.results
    { results := s4.results, trace := s23.trace ++ s4.trace, err := s4.err }

/-- runner.go:101-212 `Process`: parse the URL, categorize when requested,
query-unescape the printed URL and re-parse it, parse the query, run the
parameter stages, then the full-page fetch; each failure returns the
results accumulated so far together with the error, matching the Go
`return results, err` statements. -/
def Process (opts : Options) (catalog : List RiskyParams) (http : Http) (URL : Str) : ProcessOut :=
  match parseURL URL with
  | none => { results := {}, trace := [], err := some (str ("invalid URL")) }
  | some u0 =>
    let r0 : Results := { url := urlString u0 }
    let r1 := if opts.c || opts.all then { r0 with category := categorize URL } else r0
    match unescape (urlString u0) with
    | none => { results := r1, trace := [], err := some (str ("invalid URL escape")) }
    | some qu =>
      match parseURL qu with
      | none => { results := r1, trace := [], err := some (str ("invalid URL")) }
      | some u1 =>
        let pq := parseQuery u1.rawQuery
        if pq.2 then { results := r1, trace := [], err := some (str ("invalid query")) }
        else processStages opts catalog http u1 pq.1 r1

/-- The query map `Process` works on: the original URL is parsed and
printed, the printed form query-unescaped and re-parsed, and the raw query
parsed; `none` when any of these steps fails. -/
def processQuery (URL : Str) : Option Values :=
  match parseURL URL with
  | none => none
  | some u0 =>
    match unescape (urlString u0) with
    | none => none
    | some qu =>
      match parseURL qu with
      | none => none
      | some u1 =>
        let pq := parseQuery u1.rawQuery
        if pq.2 then none else some pq.1

/-! ### Construction (`New`) -/

/-- The transport field the pipeline configures: the optional proxy
(timeout and TLS settings carry no logic visible to the claims). -/
structure Transport where
  proxy : Option URLRec := none
deriving DecidableEq

/-- The HTTP client built by `New`. -/
structure Client where
  timeout : Nat
  transport : Transport
deriving DecidableEq

/-- The runner (runner.go:36-41); the compiled category patterns are the
static definitions above. -/
structure Runner where
  options : Options
  params : List RiskyParams
  client : Client
deriving DecidableEq

/-- runner.go:57-99 `New`: the risky-parameter file read and JSON decode
are abstracted into the `paramsFile` argument and their failure is fatal;
then the transport is built, and a non-empty configured proxy is parsed —
on a parse failure the error is shadowed (`if p, err := …; err == nil`)
and the proxy silently stays unset. On the error path Go returns the
partially-built runner with the error; only the success/failure split is
modelled. -/
def New (options : Options) (paramsFile : Except Str (List RiskyParams)) : Except Str Runner :=
  match paramsFile with
  | Except.error e => Except.error e
  | Except.ok ps =>
    let tr : Transport :=
      if options.proxy ≠ [] then
        match parseURL options.proxy with
        | some p => { proxy := some p }
        | none => { proxy := none }
      else { proxy := none }
    let cl : Client := { timeout := options.timeout, transport := tr }
    Except.ok { options := options, params := ps, client := cl }

/-! ### Helper lemmas -/

/-- Every value `categorize` returns is a non-empty string (the fallback
branch yields `endpoint`). -/
theorem categorize_ne_nil (s : Str) : categorize s ≠ [] := by
  unfold categorize
  split_ifs <;> decide

/-- A failed scan of the catalog means no entry matches case-insensitively. -/
theorem riskyMatch_none_iff (c : List RiskyParams) (p : Str) :
    riskyMatch c p = none ↔ ∀ e ∈ c, toLowerStr e.param ≠ toLowerStr p := by
  induction c with
  | nil => simp [riskyMatch]
  | cons a rest ih =>
    by_cases h : toLowerStr a.param = toLowerStr p <;> simp [riskyMatch, h, ih]

/-- A successful scan of the catalog returns a member entry whose name
matches case-insensitively. -/
theorem riskyMatch_some (c : List RiskyParams) (p : Str) (e : RiskyParams)
    (h : riskyMatch c p = some e) : e ∈ c ∧ toLowerStr e.param = toLowerStr p := by
  induction c with
  | nil => simp [riskyMatch] at h
  | cons a rest ih =>
    by_cases ha : toLowerStr a.param = toLowerStr p
    · rw [riskyMatch, if_pos ha] at h
      injection h with h
      subst h
      exact ⟨List.mem_cons_self a rest, ha⟩
    · rw [riskyMatch, if_neg ha] at h
      obtain ⟨h1, h2⟩ := ih h
      exact ⟨List.mem_cons_of_mem a h1, h2⟩

/-- The scan of the catalog returns the first matching entry: entries
before it do not match, later entries are never reached. -/
theorem riskyMatch_first (c1 c2 : List RiskyParams) (p : Str) (e : RiskyParams)
    (hpre : ∀ x ∈ c1, toLowerStr x.param ≠ toLowerStr p)
    (he : toLowerStr e.param = toLowerStr p) :
    riskyMatch (c1 ++ e :: c2) p = some e := by
  induction c1 with
  | nil => simp [riskyMatch, he]
  | cons a rest ih =>
    rw [List.cons_append, riskyMatch, if_neg (hpre a (List.mem_cons_self a rest))]
    exact ih (fun x hx => hpre x (List.mem_cons_of_mem a hx))

/-! ### Claim C5 -/

/-- Claim C5: `categorize` never fails — it is total and returns exactly
one of the seven category values — the six extension patterns are applied
in the fixed priority order js, doc, data, style, media, archive with
evaluation stopping at the first match, and the fallback is `endpoint`. -/
theorem c5_categorize_priority (s : Str) :
    (categorize s = str ("js") ∨ categorize s = str ("doc") ∨ categorize s = str ("data") ∨
      categorize s = str ("style") ∨ categorize s = str ("media") ∨
      categorize s = str ("archive") ∨ categorize s = str ("endpoint")) ∧
    (extScan jsExts s = true → categorize s = str ("js")) ∧
    (extScan jsExts s = false → extScan docExts s = true → categorize s = str ("doc")) ∧
    (extScan jsExts s = false → extScan docExts s = false → extScan dataExts s = true →
      categorize s = str ("data")) ∧
    (extScan jsExts s = false → extScan docExts s = false → extScan dataExts s = false →
      extScan styleExts s = true → categorize s = str ("style")) ∧
    (extScan jsExts s = false → extScan docExts s = false → extScan dataExts s = false →
      extScan styleExts s = false → extScan mediaExts s = true →
      categorize s = str ("media")) ∧
    (extScan jsExts s = false → extScan docExts s = false → extScan dataExts s = false →
      extScan styleExts s = false → extScan mediaExts s = false →
      extScan archiveExts s = true → categorize s = str ("archive")) ∧
    (extScan jsExts s = false → extScan docExts s = false → extScan dataExts s = false →
      extScan styleExts s = false → extScan mediaExts s = false →
      extScan archiveExts s = false → categorize s = str ("endpoint")) := by
  refine ⟨?_, ?_, ?_, ?_, ?_, ?_, ?_, ?_⟩
  · unfold categorize
    split_ifs <;> decide
  · intro h1
    simp [categorize, h1]
  · intro h1 h2
    simp [categorize, h1, h2]
  · intro h1 h2 h3
    simp [categorize, h1, h2, h3]
  · intro h1 h2 h3 h4
    simp [categorize, h1, h2, h3, h4]
  · intro h1 h2 h3 h4 h5
    simp [categorize, h1, h2, h3, h4, h5]
  · intro h1 h2 h3 h4 h5 h6
    simp [categorize, h1, h2, h3, h4, h5, h6]
  · intro h1 h2 h3 h4 h5 h6
    simp [categorize, h1, h2, h3, h4, h5, h6]

/-- Witness for C5 at the concrete input `x.js`. -/
theorem c5_witness :
    extScan jsExts (str ("x.js")) = true ∧ categorize (str ("x.js")) = str ("js") :=
  ⟨rfl, (c5_categorize_priority (str ("x.js"))).2.1 rfl⟩

/-! ### Claim C6 -/

/-- Claim C6: risky-parameter matching is case-insensitive and
first-match-wins — a returned entry is a catalog member matching the
parameter name ignoring case, the first matching entry is returned with the
rest of the catalog not scanned, and nothing is returned when no entry
matches. -/
theorem c6_risky_first_match (catalog : List RiskyParams) (p : Str) :
    (riskyMatch catalog p = none ↔ ∀ e ∈ catalog, toLowerStr e.param ≠ toLowerStr p) ∧
    (∀ e, riskyMatch catalog p = some e → e ∈ catalog ∧ toLowerStr e.param = toLowerStr p) ∧
    (∀ c1 c2 e, catalog = c1 ++ e :: c2 → toLowerStr e.param = toLowerStr p →
      (∀ x ∈ c1, toLowerStr x.param ≠ toLowerStr p) → riskyMatch catalog p = some e) := by
  refine ⟨riskyMatch_none_iff catalog p, fun e he => riskyMatch_some catalog p e he, ?_⟩
  intro c1 c2 e hcat he hpre
  rw [hcat]
  exact riskyMatch_first c1 c2 p e hpre he

/-- Witness for C6: the catalog entry named `ID` matches the query
parameter `iD` (case-insensitively), and it wins over the later entry
`id`. -/
theorem c6_witness :
    toLowerStr (str ("ID")) = toLowerStr (str ("iD")) ∧
    riskyMatch [{ param := str ("ID"), risks := [str ("r1")] },
      { param := str ("id"), risks := [str ("r2")] }] (str ("iD")) =
      some { param := str ("ID"), risks := [str ("r1")] } :=
  ⟨by decide,
    (c6_risky_first_match _ (str ("iD"))).2.2 []
      [{ param := str ("id"), risks := [str ("r2")] }]
      { param := str ("ID"), risks := [str ("r1")] } rfl (by decide)
      (fun x hx => absurd hx (List.not_mem_nil x))⟩

/-! ### Claim C10 -/

/-- Claim C10: a non-empty proxy URL that fails to parse leaves `New`
successful with no proxy configured — the parse error is discarded. -/
theorem c10_proxy_error_discarded (opts : Options) (ps : List RiskyParams)
    (h1 : opts.proxy ≠ []) (h2 : parseURL opts.proxy = none) :
    New opts (Except.ok ps) =
      Except.ok { options := opts, params := ps,
                  client := { timeout := opts.timeout, transport := { proxy := none } } } := by
  simp [New, h1, h2]

/-- Witness for C10 at a proxy string consisting of one control character,
which Go `url.Parse` rejects. -/
theorem c10_witness :
    [Char.ofNat 0] ≠ ([] : Str) ∧ parseURL [Char.ofNat 0] = none ∧
    New { proxy := [Char.ofNat 0] } (Except.ok []) =
      Except.ok { options := { proxy := [Char.ofNat 0] }, params := [],
                  client := { timeout := 0, transport := { proxy := none } } } :=
  ⟨by decide, by decide,
    c10_proxy_error_discarded { proxy := [Char.ofNat 0] } [] (by decide) (by decide)⟩

/-! ### Claim C4 -/

/-- Claim C4 (code bug): the DOM-sink stage is indeed gated to categories
`js` and `endpoint` (for `media` the scan is skipped and the sequence is
empty), but contrary to the claim the body `document.location = foo` yields
an empty match sequence even for `js`/`endpoint`: the compiled pattern
keeps the JavaScript-style `/…/` delimiters of the source string as literal
characters, so a match requires an adjacent literal slash that this body
does not contain. -/
theorem c4_domstage_eval :
    domStage (str ("endpoint")) (str ("document.location = foo")) = [] ∧
    domStage (str ("js")) (str ("document.location = foo")) = [] ∧
    domStage (str ("media")) (str ("document.location = foo")) = [] ∧
    domStage (str ("endpoint")) (str ("x /location = 1")) = [str ("/location =")] :=
  ⟨rfl, rfl, rfl, rfl⟩

/-! ### Claim C3 -/

/-- Claim C3 (code bug): with parameter probing and the full-page fetch
both enabled on `http://ex/?q=1`, both issued requests go to
`http://ex/?q=iy3j4h234hjb23234` — the stage-4 fetch reuses
`parsedURL.RawQuery` as last written inside the reflection loop, where the
final restore is never re-encoded, so the "full page" GET carries the probe
marker instead of the URL's own parameter value `q=1`. -/
theorem c3_fetch_uses_marker_url :
    (Process { p := true, request := true } []
        (fun _ => Except.ok { statusCode := 200, contentType := [], body := [], contentLength := 0 })
        (str ("http://ex/?q=1"))).trace.map Request.url =
      [str ("http://ex/?q=iy3j4h234hjb23234"), str ("http://ex/?q=iy3j4h234hjb23234")] ∧
    (Process { p := true, request := true } []
        (fun _ => Except.ok { statusCode := 200, contentType := [], body := [], contentLength := 0 })
        (str ("http://ex/?q=1"))).err = none ∧
    str ("http://ex/?q=iy3j4h234hjb23234") ≠ str ("http://ex/?q=1") :=
  ⟨rfl, rfl, by decide⟩

/-! ### Claim C1, counterexample -/

/-- Counterexample to C1 as stated: on the query `a=1&a=2&b=3` (parameter
`a` has two values) the probe request for `b` carries `a=1` only — the
restore after probing `a` wrote back just the saved first value
(`tmp := value[0]`), so `a` does not retain its original values during the
probe of `b`, and the original value of `a` is not restored before the next
parameter is probed. -/
theorem c1_counterexample :
    (Process { p := true } []
        (fun _ => Except.ok { statusCode := 200, contentType := [], body := [], contentLength := 0 })
        (str ("http://h/?a=1&a=2&b=3"))).trace.map Request.url =
      [str ("http://h/?a=iy3j4h234hjb23234&b=3"), str ("http://h/?a=1&b=iy3j4h234hjb23234")] ∧
    str ("http://h/?a=1&b=iy3j4h234hjb23234") ≠ str ("http://h/?a=1&a=2&b=iy3j4h234hjb23234") :=
  ⟨rfl, by decide⟩

/-! ### Claim C2, counterexample -/

/-- Counterexample to C2 as stated: when the probe request fails, `Process`
returns the error together with the results record populated so far — the
category and the parameter list of the already-completed stages are visible
to the caller, not discarded. -/
theorem c2_counterexample :
    (Process { c := true, p := true, request := true } []
        (fun _ => Except.error (str ("boom"))) (str ("http://x/a?q=1"))).err =
      some (str ("boom")) ∧
    (Process { c := true, p := true, request := true } []
        (fun _ => Except.error (str ("boom"))) (str ("http://x/a?q=1"))).results.category =
      str ("endpoint") ∧
    (Process { c := true, p := true, request := true } []
        (fun _ => Except.error (str ("boom"))) (str ("http://x/a?q=1"))).results.paramsList =
      [str ("q")] ∧
    str ("endpoint") ≠ ([] : Str) :=
  ⟨rfl, rfl, rfl, by decide⟩

/-! ### Claim C7, counterexample -/

/-- Counterexample to C7 as stated: the URL `http://x/?&` has the non-empty
query string `&`, parameter scanning is requested (`P` set), the analysis
succeeds, and yet the parameter list is empty — `ParseQuery` drops
components with an empty key, so a non-empty query string does not imply a
non-empty parameter list. -/
theorem c7_counterexample :
    (parseURL (str ("http://x/?&"))).map URLRec.rawQuery = some (str ("&")) ∧
    str ("&") ≠ ([] : Str) ∧
    (Process { p := true } [] (fun _ => Except.error (str ("e")))
        (str ("http://x/?&"))).err = none ∧
    (Process { p := true } [] (fun _ => Except.error (str ("e")))
        (str ("http://x/?&"))).results.paramsList = [] :=
  ⟨rfl, by decide, rfl, rfl⟩

/-! ### Claim C1, amended theorem -/

/-- Setting a present key to a fresh value and then back to its sole
original value restores the query map exactly. -/
theorem setValue_restore : ∀ (q : Values) (k v m : Str), lookupValues q k = [v] →
    setValue (setValue q k m) k v = q
  | [], k, v, m, h => by simp [lookupValues, lookupEntry] at h
  | (k1, vs) :: rest, k, v, m, h => by
    by_cases hk : k1 = k
    · have hb : (k1 == k) = true := by simp [hk]
      have hv : vs = [v] := by
        simpa [lookupValues, lookupEntry, List.find?, hb] using h
      simp [setValue, hb, hv]
    · have hb : (k1 == k) = false := by simp [hk]
      have h2 : lookupValues rest k = [v] := by
        simpa [lookupValues, lookupEntry, List.find?, hb] using h
      simp [setValue, hb, setValue_restore rest k v m h2]

/-- Claim C1 (amended): over a query in which every probed parameter has
exactly one value, the reflection loop probes each parameter `k` of the
iteration order with the URL obtained from the original query by replacing
only the value of `k` with the marker — every other parameter keeps its
original value in that request — and the query map is back to its original
state when the loop completes (the initial prefix `tr` and the bound `m`
account for a loop aborted by a request error). -/
theorem c1_probe_isolation : ∀ (http : Http) (ua : Str) (base : URLRec) (ks : List Str)
    (q : Values) (raw : Str) (refl : List ReflectedParams) (tr : List Request),
    (∀ k ∈ ks, ∃ v, lookupValues q k = [v]) →
    ∃ m, (reflectLoop http ua base payload ks q raw refl tr).trace =
        tr ++ (ks.take m).map (fun k =>
          httpRequest ua (urlString { base with rawQuery := encode (setValue q k payload) })
            (str ("GET"))) ∧
      ((reflectLoop http ua base payload ks q raw refl tr).err = none →
        (reflectLoop http ua base payload ks q raw refl tr).query = q ∧ m = ks.length)
  | http, ua, base, [], q, raw, refl, tr, _ =>
    ⟨0, by simp [reflectLoop], fun _ => ⟨rfl, rfl⟩⟩
  | http, ua, base, k :: ks, q, raw, refl, tr, hq => by
    obtain ⟨v, hv⟩ := hq k (List.mem_cons_self k ks)
    have hrest : ∀ x ∈ ks, ∃ w, lookupValues q x = [w] := fun x hx =>
      hq x (List.mem_cons_of_mem k hx)
    have hrestore : setValue (setValue q k payload) k ((lookupValues q k).headD []) = q := by
      rw [hv]
      exact setValue_restore q k v payload hv
    simp only [reflectLoop]
    cases hres : http (httpRequest ua
        (urlString { base with rawQuery := encode (setValue q k payload) }) (str ("GET"))) with
    | error e =>
      refine ⟨1, rfl, fun hn => ?_⟩
      exact Option.noConfusion hn
    | ok res =>
      rw [hrestore]
      obtain ⟨m, hm1, hm2⟩ := c1_probe_isolation http ua base ks q _ _ _ hrest
      refine ⟨m + 1, ?_, fun hn => ?_⟩
      · rw [hm1]
        simp [List.take_succ_cons, List.append_assoc]
      · obtain ⟨hmq, hml⟩ := hm2 hn
        exact ⟨hmq, by simp [hml]⟩

/-- Inputs of the C1 witness: a one-parameter, single-valued query. -/
def w1http : Http :=
  fun _ => Except.ok { statusCode := 200, contentType := [], body := [], contentLength := 0 }

/-- Query map of the C1 witness. -/
def w1q : Values := [(str ("a"), [str ("1")])]

/-- Base URL of the C1 witness. -/
def w1base : URLRec := { scheme := str ("http"), host := str ("h"), path := str ("/") }

/-- Witness for the amended C1 at a concrete single-valued query. -/
theorem c1_witness :
    (∀ k ∈ [str ("a")], ∃ v, lookupValues w1q k = [v]) ∧
    (∃ m, (reflectLoop w1http [] w1base payload [str ("a")] w1q (str ("a=1")) [] []).trace =
        [] ++ (([str ("a")]).take m).map (fun k =>
          httpRequest [] (urlString { w1base with rawQuery := encode (setValue w1q k payload) })
            (str ("GET"))) ∧
      ((reflectLoop w1http [] w1base payload [str ("a")] w1q (str ("a=1")) [] []).err = none →
        (reflectLoop w1http [] w1base payload [str ("a")] w1q (str ("a=1")) [] []).query = w1q ∧
          m = ([str ("a")]).length)) :=
  have hk : ∀ k ∈ [str ("a")], ∃ v, lookupValues w1q k = [v] := fun k hmem => by
    rw [List.mem_singleton] at hmem
    subst hmem
    exact ⟨str ("1"), rfl⟩
  ⟨hk, c1_probe_isolation w1http [] w1base [str ("a")] w1q (str ("a=1")) [] [] hk⟩

/-! ### Claim C9 -/

/-- Claim C9: every probe request issued by the reflection loop, and every
URL recorded in a `ReflectedParams` finding, is `url.Values.Encode` output:
the query pairs rendered with keys in sorted (byte-wise alphabetical)
order — not necessarily the original URL's textual parameter order — and
with every key and value percent-re-encoded (`renderQ` applies
`queryEscape` to both). The `∈ tr`/`∈ refl` disjuncts cover the
accumulators the loop was started with; `Process` starts it with empty
ones. -/
theorem c9_sorted_reencoding : ∀ (http : Http) (ua : Str) (base : URLRec) (marker : Str)
    (ks : List Str) (q : Values) (raw : Str) (refl : List ReflectedParams) (tr : List Request),
    (∀ r ∈ (reflectLoop http ua base marker ks q raw refl tr).trace,
      r ∈ tr ∨ ∃ qs, r.url = urlString { base with rawQuery := renderQ qs } ∧
        List.Sorted keyLe qs) ∧
    (∀ f ∈ (reflectLoop http ua base marker ks q raw refl tr).reflected,
      f ∈ refl ∨ ∃ qs, f.url = urlString { base with rawQuery := renderQ qs } ∧
        List.Sorted keyLe qs)
  | http, ua, base, marker, [], q, raw, refl, tr =>
    ⟨fun _ hr => Or.inl hr, fun _ hf => Or.inl hf⟩
  | http, ua, base, marker, k :: ks, q, raw, refl, tr => by
    simp only [reflectLoop]
    cases hres : http (httpRequest ua
        (urlString { base with rawQuery := encode (setValue q k marker) }) (str ("GET"))) with
    | error e =>
      refine ⟨fun r hr => ?_, fun f hf => Or.inl hf⟩
      rcases List.mem_append.mp hr with h | h
      · exact Or.inl h
      · rw [List.mem_singleton] at h
        subst h
        exact Or.inr ⟨List.insertionSort keyLe (setValue q k marker), rfl,
          List.sorted_insertionSort keyLe _⟩
    | ok res =>
      refine ⟨fun r hr => ?_, fun f hf => ?_⟩
      · rcases (c9_sorted_reencoding http ua base marker ks _ _ _ _).1 r hr with h | h
        · rcases List.mem_append.mp h with h2 | h2
          · exact Or.inl h2
          · rw [List.mem_singleton] at h2
            subst h2
            exact Or.inr ⟨List.insertionSort keyLe (setValue q k marker), rfl,
              List.sorted_insertionSort keyLe _⟩
        · exact Or.inr h
      · rcases (c9_sorted_reencoding http ua base marker ks _ _ _ _).2 f hf with h | h
        · split at h
          · rcases List.mem_append.mp h with h2 | h2
            · exact Or.inl h2
            · rw [List.mem_singleton] at h2
              subst h2
              exact Or.inr ⟨List.insertionSort keyLe (setValue q k marker), rfl,
                List.sorted_insertionSort keyLe _⟩
          · exact Or.inl h
        · exact Or.inr h

/-- Oracle of the C9 witness, echoing the marker in every body. -/
def w9http : Http :=
  fun _ => Except.ok { statusCode := 200, contentType := [], body := payload, contentLength := 0 }

/-- Query map of the C9 witness, textual order `b` before `a`. -/
def w9q : Values := [(str ("b"), [str ("2")]), (str ("a"), [str ("1")])]

/-- Base URL of the C9 witness. -/
def w9base : URLRec := { scheme := str ("http"), host := str ("h"), path := str ("/") }

/-- Finding recorded by the C9 witness run: its URL lists `a` before `b`
although the input order was `b` before `a`. -/
def w9f : ReflectedParams :=
  { param := str ("b"), url := str ("http://h/?a=1&b=iy3j4h234hjb23234") }

/-- Witness for C9: a concrete finding of a concrete loop run, whose URL is
the sorted re-encoding. -/
theorem c9_witness :
    w9f ∈ (reflectLoop w9http [] w9base payload [str ("b"), str ("a")] w9q
        (str ("b=2&a=1")) [] []).reflected ∧
    (w9f ∈ ([] : List ReflectedParams) ∨
      ∃ qs, w9f.url = urlString { w9base with rawQuery := renderQ qs } ∧
        List.Sorted keyLe qs) :=
  have hm : w9f ∈ (reflectLoop w9http [] w9base payload [str ("b"), str ("a")] w9q
      (str ("b=2&a=1")) [] []).reflected := by decide
  ⟨hm, (c9_sorted_reencoding w9http [] w9base payload [str ("b"), str ("a")] w9q
    (str ("b=2&a=1")) [] []).2 w9f hm⟩

/-! ### Claim C8 -/

/-- Every request the reflection loop adds to its trace is built by
`httpRequest` with the configured user agent and the GET method. -/
theorem reflect_trace_shape : ∀ (http : Http) (ua : Str) (base : URLRec) (marker : Str)
    (ks : List Str) (q : Values) (raw : Str) (refl : List ReflectedParams) (tr : List Request)
    (r : Request), r ∈ (reflectLoop http ua base marker ks q raw refl tr).trace →
    r ∈ tr ∨ ∃ u, r = httpRequest ua u (str ("GET"))
  | http, ua, base, marker, [], q, raw, refl, tr, r => fun hr => Or.inl hr
  | http, ua, base, marker, k :: ks, q, raw, refl, tr, r => by
    simp only [reflectLoop]
    cases hres : http (httpRequest ua
        (urlString { base with rawQuery := encode (setValue q k marker) }) (str ("GET"))) with
    | error e =>
      intro hr
      rcases List.mem_append.mp hr with h | h
      · exact Or.inl h
      · rw [List.mem_singleton] at h
        exact Or.inr ⟨_, h⟩
    | ok res =>
      intro hr
      rcases reflect_trace_shape http ua base marker ks _ _ _ _ r hr with h | h
      · rcases List.mem_append.mp h with h2 | h2
        · exact Or.inl h2
        · rw [List.mem_singleton] at h2
          exact Or.inr ⟨_, h2⟩
      · exact Or.inr h

/-- Every request the parameter stages issue is a GET built by
`httpRequest` with the configured user agent. -/
theorem stage23_trace_shape (opts : Options) (catalog : List RiskyParams) (http : Http)
    (u1 : URLRec) (query : Values) (rr : Results) (x : Request) :
    x ∈ (stage23 opts catalog http u1 query rr).trace →
    ∃ u, x = httpRequest opts.userAgent u (str ("GET")) := by
  simp only [stage23]
  split_ifs <;> intro hx <;>
    first
    | exact absurd hx (List.not_mem_nil x)
    | (rcases reflect_trace_shape http opts.userAgent u1 payload _ _ _ _ _ x hx with h | h
       exacts [absurd h (List.not_mem_nil x), h])

/-- Every request the full-page-fetch stage issues is a GET built by
`httpRequest` with the configured user agent. -/
theorem stage4_trace_shape (opts : Options) (http : Http) (base : URLRec) (raw : Str)
    (rr : Results) (x : Request) :
    x ∈ (stage4 opts http base raw rr).trace →
    ∃ u, x = httpRequest opts.userAgent u (str ("GET")) := by
  simp only [stage4]
  split_ifs with hgate
  · cases hres : http (httpRequest opts.userAgent
        (urlString { base with rawQuery := raw }) (str ("GET"))) with
    | error e =>
      intro hx
      rw [List.mem_singleton] at hx
      exact ⟨_, hx⟩
    | ok res =>
      intro hx
      rw [List.mem_singleton] at hx
      exact ⟨_, hx⟩
  · intro hx
    exact absurd hx (List.not_mem_nil x)

/-- Every request the post-parsing stages issue is a GET built by
`httpRequest` with the configured user agent. -/
theorem processStages_trace_shape (opts : Options) (catalog : List RiskyParams) (http : Http)
    (u1 : URLRec) (q : Values) (r1 : Results) (x : Request) :
    x ∈ (processStages opts catalog http u1 q r1).trace →
    ∃ u, x = httpRequest opts.userAgent u (str ("GET")) := by
  simp only [processStages]
  cases hse : (stage23 opts catalog http u1 q r1).err with
  | some e =>
    intro hx
    exact stage23_trace_shape opts catalog http u1 q r1 x hx
  | none =>
    intro hx
    rcases List.mem_append.mp hx with h | h
    · exact stage23_trace_shape opts catalog http u1 q r1 x h
    · exact stage4_trace_shape opts http u1 _ _ x h

/-- Claim C8: every outbound request of the pipeline — reflection probe or
full-page fetch — uses the GET method, carries exactly the one header
`User-Agent` taken from the configuration, and has no body. -/
theorem c8_get_single_header (opts : Options) (catalog : List RiskyParams) (http : Http)
    (URL : Str) (r : Request) (hr : r ∈ (Process opts catalog http URL).trace) :
    r.method = str ("GET") ∧ r.headers = [(str ("User-Agent"), opts.userAgent)] ∧
      r.body = none := by
  have hshape : ∃ u, r = httpRequest opts.userAgent u (str ("GET")) := by
    simp only [Process] at hr
    cases hp : parseURL URL with
    | none => simp [hp] at hr
    | some u0 =>
      simp only [hp] at hr
      cases hu : unescape (urlString u0) with
      | none => simp [hu] at hr
      | some qu =>
        simp only [hu] at hr
        cases hp2 : parseURL qu with
        | none => simp [hp2] at hr
        | some u1 =>
          simp only [hp2] at hr
          cases hq : (parseQuery u1.rawQuery).2 with
          | true => simp [hq] at hr
          | false =>
            simp only [hq, Bool.false_eq_true, if_false] at hr
            exact processStages_trace_shape opts catalog http u1 _ _ r hr
  obtain ⟨u, rfl⟩ := hshape
  exact ⟨rfl, rfl, rfl⟩

/-- Witness for C8: the full-page-fetch request of a concrete run. -/
theorem c8_witness :
    httpRequest [] (str ("http://ex/?q=iy3j4h234hjb23234")) (str ("GET")) ∈
      (Process { p := true, request := true } [] w1http (str ("http://ex/?q=1"))).trace ∧
    ((httpRequest [] (str ("http://ex/?q=iy3j4h234hjb23234")) (str ("GET"))).method =
        str ("GET") ∧
      (httpRequest [] (str ("http://ex/?q=iy3j4h234hjb23234")) (str ("GET"))).headers =
        [(str ("User-Agent"), ([] : Str))] ∧
      (httpRequest [] (str ("http://ex/?q=iy3j4h234hjb23234")) (str ("GET"))).body = none) :=
  have hm : httpRequest [] (str ("http://ex/?q=iy3j4h234hjb23234")) (str ("GET")) ∈
      (Process { p := true, request := true } [] w1http (str ("http://ex/?q=1"))).trace := by
    decide
  ⟨hm, c8_get_single_header { p := true, request := true } [] w1http (str ("http://ex/?q=1"))
    (httpRequest [] (str ("http://ex/?q=iy3j4h234hjb23234")) (str ("GET"))) hm⟩

/-! ### Claims C2 and C7, amended theorems -/

/-- The parameter stages never touch the fetch-stage fields or the
category. -/
theorem stage23_keeps_fields (opts : Options) (catalog : List RiskyParams) (http : Http)
    (u1 : URLRec) (query : Values) (rr : Results) :
    (stage23 opts catalog http u1 query rr).results.statusCode = rr.statusCode ∧
    (stage23 opts catalog http u1 query rr).results.contentType = rr.contentType ∧
    (stage23 opts catalog http u1 query rr).results.contentLength = rr.contentLength ∧
    (stage23 opts catalog http u1 query rr).results.dom = rr.dom ∧
    (stage23 opts catalog http u1 query rr).results.category = rr.category := by
  simp only [stage23]
  split_ifs <;> exact ⟨rfl, rfl, rfl, rfl, rfl⟩

/-- The parameter list produced by the parameter stages, for an input
record with an empty list: the query keys when the query is non-empty and
listing is requested, empty otherwise. -/
theorem stage23_paramsList_nil (opts : Options) (catalog : List RiskyParams) (http : Http)
    (u1 : URLRec) (query : Values) (rr : Results) (hrr : rr.paramsList = []) :
    (stage23 opts catalog http u1 query rr).results.paramsList =
      if 0 < query.length ∧ (opts.p || opts.pv || opts.all) = true
      then query.map (fun kv => kv.1) else [] := by
  simp only [stage23]
  split_ifs <;> simp_all

/-- The fetch stage keeps the category and the parameter list. -/
theorem stage4_keeps (opts : Options) (http : Http) (base : URLRec) (raw : Str)
    (rr : Results) :
    (stage4 opts http base raw rr).results.category = rr.category ∧
    (stage4 opts http base raw rr).results.paramsList = rr.paramsList := by
  simp only [stage4]
  split_ifs with hgate
  · cases hres : http (httpRequest opts.userAgent
        (urlString { base with rawQuery := raw }) (str ("GET"))) with
    | error e => exact ⟨rfl, rfl⟩
    | ok res => exact ⟨rfl, rfl⟩
  · exact ⟨rfl, rfl⟩

/-- A failed fetch stage returns the results record unchanged. -/
theorem stage4_err_frame (opts : Options) (http : Http) (base : URLRec) (raw : Str)
    (rr : Results) (h : (stage4 opts http base raw rr).err ≠ none) :
    (stage4 opts http base raw rr).results = rr := by
  simp only [stage4] at h ⊢
  split_ifs at h ⊢ with hgate
  · cases hres : http (httpRequest opts.userAgent
        (urlString { base with rawQuery := raw }) (str ("GET"))) with
    | error e => rfl
    | ok res =>
      rw [hres] at h
      exact absurd rfl h
  · exact absurd rfl h

/-- When the post-parsing stages fail, the fetch-stage fields keep the
values they had before the stages ran. -/
theorem processStages_err_fields (opts : Options) (catalog : List RiskyParams) (http : Http)
    (u1 : URLRec) (q : Values) (r1 : Results)
    (h : (processStages opts catalog http u1 q r1).err ≠ none) :
    (processStages opts catalog http u1 q r1).results.statusCode = r1.statusCode ∧
    (processStages opts catalog http u1 q r1).results.contentType = r1.contentType ∧
    (processStages opts catalog http u1 q r1).results.contentLength = r1.contentLength ∧
    (processStages opts catalog http u1 q r1).results.dom = r1.dom := by
  simp only [processStages] at h ⊢
  cases hse : (stage23 opts catalog http u1 q r1).err with
  | some e =>
    obtain ⟨f1, f2, f3, f4, _⟩ := stage23_keeps_fields opts catalog http u1 q r1
    exact ⟨f1, f2, f3, f4⟩
  | none =>
    rw [hse] at h
    have h4 := stage4_err_frame opts http u1 (stage23 opts catalog http u1 q r1).rawQuery
      (stage23 opts catalog http u1 q r1).results h
    obtain ⟨f1, f2, f3, f4, _⟩ := stage23_keeps_fields opts catalog http u1 q r1
    rw [h4]
    exact ⟨f1, f2, f3, f4⟩

/-- The post-parsing stages keep the category, and their parameter list is
the one the parameter stages produced. -/
theorem processStages_keeps (opts : Options) (catalog : List RiskyParams) (http : Http)
    (u1 : URLRec) (q : Values) (r1 : Results) :
    (processStages opts catalog http u1 q r1).results.category = r1.category ∧
    (processStages opts catalog http u1 q r1).results.paramsList =
      (stage23 opts catalog http u1 q r1).results.paramsList := by
  simp only [processStages]
  cases hse : (stage23 opts catalog http u1 q r1).err with
  | some e =>
    exact ⟨(stage23_keeps_fields opts catalog http u1 q r1).2.2.2.2, rfl⟩
  | none =>
    constructor
    · exact ((stage4_keeps opts http u1 _ _).1).trans
        (stage23_keeps_fields opts catalog http u1 q r1).2.2.2.2
    · exact (stage4_keeps opts http u1 _ _).2

/-- Claim C2 (amended): a failing probe or fetch request aborts the
remaining stages — the fetch-stage fields are never populated when an error
is returned — and `Process` returns the error, but the Go named return
carries the partially-populated record with it rather than discarding it:
on a concrete run whose every request fails, the returned record still
holds the computed category and parameter list alongside the error. -/
theorem c2_abort_keeps_partial :
    (∀ (opts : Options) (catalog : List RiskyParams) (http : Http) (URL : Str),
      (Process opts catalog http URL).err ≠ none →
        (Process opts catalog http URL).results.statusCode = 0 ∧
        (Process opts catalog http URL).results.contentType = [] ∧
        (Process opts catalog http URL).results.contentLength = 0 ∧
        (Process opts catalog http URL).results.dom = []) ∧
    (∀ e ua : Str,
      Process { c := true, p := true, request := true, userAgent := ua } []
          (fun _ => Except.error e) (str ("http://x/a?q=1")) =
        { results := { url := str ("http://x/a?q=1"), category := str ("endpoint"), paramsList := [str ("q")] },
          trace := [httpRequest ua (str ("http://x/a?q=iy3j4h234hjb23234")) (str ("GET"))],
          err := some e }) := by
  constructor
  · intro opts catalog http URL h
    simp only [Process] at h ⊢
    cases hp : parseURL URL with
    | none =>
      simp only [hp] at h ⊢
      simp
    | some u0 =>
      simp only [hp] at h ⊢
      cases hu : unescape (urlString u0) with
      | none =>
        simp only [hu] at h ⊢
        (try split_ifs) <;> simp
      | some qu =>
        simp only [hu] at h ⊢
        cases hp2 : parseURL qu with
        | none =>
          simp only [hp2] at h ⊢
          (try split_ifs) <;> simp
        | some u1 =>
          simp only [hp2] at h ⊢
          cases hq : (parseQuery u1.rawQuery).2 with
          | true =>
            simp only [hq, eq_self_iff_true, if_true] at h ⊢
            (try split_ifs) <;> simp
          | false =>
            simp only [hq, Bool.false_eq_true, if_false] at h ⊢
            obtain ⟨f1, f2, f3, f4⟩ :=
              processStages_err_fields opts catalog http u1 (parseQuery u1.rawQuery).1 _ h
            refine ⟨f1.trans ?_, f2.trans ?_, f3.trans ?_, f4.trans ?_⟩ <;>
              split_ifs <;> rfl
  · intro e ua
    rfl

/-- Witness for the amended C2 at a concrete failing run. -/
theorem c2_witness :
    (Process { c := true, p := true, request := true } [] (fun _ => Except.error (str ("x")))
        (str ("http://x/a?q=1"))).err ≠ none ∧
    ((Process { c := true, p := true, request := true } [] (fun _ => Except.error (str ("x")))
        (str ("http://x/a?q=1"))).results.statusCode = 0 ∧
      (Process { c := true, p := true, request := true } [] (fun _ => Except.error (str ("x")))
        (str ("http://x/a?q=1"))).results.contentType = [] ∧
      (Process { c := true, p := true, request := true } [] (fun _ => Except.error (str ("x")))
        (str ("http://x/a?q=1"))).results.contentLength = 0 ∧
      (Process { c := true, p := true, request := true } [] (fun _ => Except.error (str ("x")))
        (str ("http://x/a?q=1"))).results.dom = []) :=
  have hne : (Process { c := true, p := true, request := true } []
      (fun _ => Except.error (str ("x"))) (str ("http://x/a?q=1"))).err ≠ none := by decide
  ⟨hne, c2_abort_keeps_partial.1 _ _ _ _ hne⟩

/-- Claim C7 (amended): for a successfully returned record, the category is
non-empty exactly when classification was requested, and the parameter list
is non-empty exactly when the parsed query map is non-empty and listing was
requested (`P`, `PV`, or `All`) — the parsed query map, not the raw query
string, since `ParseQuery` drops empty-key components. -/
theorem c7_list_category_invariant (opts : Options) (catalog : List RiskyParams) (http : Http)
    (URL : Str) (h : (Process opts catalog http URL).err = none) :
    ((Process opts catalog http URL).results.category ≠ [] ↔ (opts.c || opts.all) = true) ∧
    ((Process opts catalog http URL).results.paramsList ≠ [] ↔
      ((∃ q, processQuery URL = some q ∧ q ≠ []) ∧ (opts.p || opts.pv || opts.all) = true)) := by
  simp only [Process] at h
  simp only [Process, processQuery]
  cases hp : parseURL URL with
  | none =>
    simp only [hp] at h
    exact Option.noConfusion h
  | some u0 =>
    simp only [hp] at h
    simp only [hp]
    cases hu : unescape (urlString u0) with
    | none =>
      simp only [hu] at h
      exact Option.noConfusion h
    | some qu =>
      simp only [hu] at h
      simp only [hu]
      cases hp2 : parseURL qu with
      | none =>
        simp only [hp2] at h
        exact Option.noConfusion h
      | some u1 =>
        simp only [hp2] at h
        simp only [hp2]
        cases hq : (parseQuery u1.rawQuery).2 with
        | true =>
          simp only [hq, eq_self_iff_true, if_true] at h
          exact Option.noConfusion h
        | false =>
          simp only [hq, Bool.false_eq_true, if_false] at h
          simp only [hq, Bool.false_eq_true, if_false]
          obtain ⟨hc, hl⟩ :=
            processStages_keeps opts catalog http u1 (parseQuery u1.rawQuery).1 _
          rw [hc, hl, stage23_paramsList_nil opts catalog http u1 (parseQuery u1.rawQuery).1 _
            (by split_ifs <;> rfl)]
          constructor
          · by_cases hflag : (opts.c || opts.all) = true
            · rw [if_pos hflag]
              simp [hflag, categorize_ne_nil URL]
            · rw [if_neg hflag]
              simp [hflag]
          · by_cases hAB : 0 < (parseQuery u1.rawQuery).1.length ∧
                (opts.p || opts.pv || opts.all) = true
            · rw [if_pos hAB]
              simp only [ne_eq, List.map_eq_nil_iff]
              constructor
              · intro hne
                exact ⟨⟨(parseQuery u1.rawQuery).1, rfl, hne⟩, hAB.2⟩
              · rintro ⟨⟨qq, hqq, hqne⟩, _⟩
                injection hqq with hqq
                rw [hqq]
                exact hqne
            · rw [if_neg hAB]
              constructor
              · intro hfalse
                exact absurd rfl hfalse
              · rintro ⟨⟨qq, hqq, hqne⟩, hB⟩
                injection hqq with hqq
                subst hqq
                exact absurd ⟨List.length_pos.mpr hqne, hB⟩ hAB

/-- Witness for the amended C7 at a concrete successful run. -/
theorem c7_witness :
    (Process { c := true, p := true } [] w1http (str ("http://ex/?q=1"))).err = none ∧
    (((Process { c := true, p := true } [] w1http (str ("http://ex/?q=1"))).results.category ≠ []
        ↔ (Options.c { c := true, p := true } || Options.all { c := true, p := true }) = true) ∧
      ((Process { c := true, p := true } [] w1http
          (str ("http://ex/?q=1"))).results.paramsList ≠ [] ↔
        ((∃ q, processQuery (str ("http://ex/?q=1")) = some q ∧ q ≠ []) ∧
          (Options.p { c := true, p := true } || Options.pv { c := true, p := true } ||
            Options.all { c := true, p := true }) = true))) :=
  have hn : (Process { c := true, p := true } [] w1http (str ("http://ex/?q=1"))).err = none := by
    decide
  ⟨hn, c7_list_category_invariant { c := true, p := true } [] w1http (str ("http://ex/?q=1")) hn⟩

end Sigurlx
